import Mathlib

set_option maxRecDepth 100000

/-!
Verification of the URL-shortener core (src/URL.py) against its
natural-language specification.

The embedding is shallow: the SQLite table `urls` becomes a list of rows,
each method of `URLShortener` becomes a pure function on that list (with
the row-creation timestamp passed explicitly, standing for SQLite's
`CURRENT_TIMESTAMP`), and `RedirectHandler.do_GET` becomes a function from
the store and the request path to an HTTP response paired with the updated
store.  `hashlib.md5` is embedded as the full MD5 algorithm over byte
lists (`Nat` values below 256), so every definition is executable.
-/

/-! ### MD5 (embedding of `hashlib.md5(...).hexdigest()`) -/

/-- 32-bit left rotation on naturals below 2^32. -/
def lrot (x n : Nat) : Nat := ((x <<< n) ||| (x >>> (32 - n))) % 4294967296

/-- The 64 MD5 round constants, `K[i] = floor(abs(sin(i+1)) * 2^32)`. -/
def md5K : List Nat :=
  [0xd76aa478, 0xe8c7b756, 0x242070db, 0xc1bdceee,
   0xf57c0faf, 0x4787c62a, 0xa8304613, 0xfd469501,
   0x698098d8, 0x8b44f7af, 0xffff5bb1, 0x895cd7be,
   0x6b901122, 0xfd987193, 0xa679438e, 0x49b40821,
   0xf61e2562, 0xc040b340, 0x265e5a51, 0xe9b6c7aa,
   0xd62f105d, 0x02441453, 0xd8a1e681, 0xe7d3fbc8,
   0x21e1cde6, 0xc33707d6, 0xf4d50d87, 0x455a14ed,
   0xa9e3e905, 0xfcefa3f8, 0x676f02d9, 0x8d2a4c8a,
   0xfffa3942, 0x8771f681, 0x6d9d6122, 0xfde5380c,
   0xa4beea44, 0x4bdecfa9, 0xf6bb4b60, 0xbebfbc70,
   0x289b7ec6, 0xeaa127fa, 0xd4ef3085, 0x04881d05,
   0xd9d4d039, 0xe6db99e5, 0x1fa27cf8, 0xc4ac5665,
   0xf4292244, 0x432aff97, 0xab9423a7, 0xfc93a039,
   0x655b59c3, 0x8f0ccc92, 0xffeff47d, 0x85845dd1,
   0x6fa87e4f, 0xfe2ce6e0, 0xa3014314, 0x4e0811a1,
   0xf7537e82, 0xbd3af235, 0x2ad7d2bb, 0xeb86d391]

/-- The 64 MD5 per-round shift amounts. -/
def md5S : List Nat :=
  [7, 12, 17, 22, 7, 12, 17, 22, 7, 12, 17, 22, 7, 12, 17, 22,
   5, 9, 14, 20, 5, 9, 14, 20, 5, 9, 14, 20, 5, 9, 14, 20,
   4, 11, 16, 23, 4, 11, 16, 23, 4, 11, 16, 23, 4, 11, 16, 23,
   6, 10, 15, 21, 6, 10, 15, 21, 6, 10, 15, 21, 6, 10, 15, 21]

/-- The MD5 round mixing function (round `i`, state words `b c d`). -/
def md5F (i b c d : Nat) : Nat :=
  if i < 16 then (b &&& c) ||| ((4294967295 ^^^ b) &&& d)
  else if i < 32 then (d &&& b) ||| ((4294967295 ^^^ d) &&& c)
  else if i < 48 then b ^^^ c ^^^ d
  else c ^^^ (b ||| (4294967295 ^^^ d))

/-- The MD5 message-word index for round `i`. -/
def md5G (i : Nat) : Nat :=
  if i < 16 then i
  else if i < 32 then (5 * i + 1) % 16
  else if i < 48 then (3 * i + 5) % 16
  else (7 * i) % 16

/-- One MD5 round: update state `(a, b, c, d)` with round `i` of chunk `m`. -/
def md5Step (m : List Nat) (st : Nat × Nat × Nat × Nat) (i : Nat) :
    Nat × Nat × Nat × Nat :=
  let f := (md5F i st.2.1 st.2.2.1 st.2.2.2 + st.1 + md5K.getD i 0 +
            m.getD (md5G i) 0) % 4294967296
  (st.2.2.2, (st.2.1 + lrot f (md5S.getD i 0)) % 4294967296, st.2.1, st.2.2.1)

/-- Process one 16-word chunk: 64 rounds, then add into the running state. -/
def md5Chunk (st : Nat × Nat × Nat × Nat) (m : List Nat) :
    Nat × Nat × Nat × Nat :=
  let r := (List.range 64).foldl (md5Step m) st
  ((st.1 + r.1) % 4294967296, (st.2.1 + r.2.1) % 4294967296,
   (st.2.2.1 + r.2.2.1) % 4294967296, (st.2.2.2 + r.2.2.2) % 4294967296)

/-- Little-endian byte decomposition of `x` into `n` bytes. -/
def toLE (x n : Nat) : List Nat := (List.range n).map (fun i => (x >>> (8 * i)) % 256)

/-- Little-endian 32-bit word from a byte list. -/
def leWord (bs : List Nat) : Nat := bs.foldr (fun b acc => b + 256 * acc) 0

/-- The sixteen little-endian words of a 64-byte chunk. -/
def toWords (c : List Nat) : List Nat :=
  (List.range 16).map (fun j => leWord ((c.drop (4 * j)).take 4))

/-- Split a byte list into 64-byte chunks (structural recursion on a fuel
bound, so that the definition reduces inside the kernel). -/
def toChunksAux : Nat → List Nat → List (List Nat)
  | 0, _ => []
  | _, [] => []
  | n + 1, x :: xs => ((x :: xs).take 64) :: toChunksAux n ((x :: xs).drop 64)

/-- Split a byte list into 64-byte chunks. -/
def toChunks (l : List Nat) : List (List Nat) := toChunksAux l.length l

/-- MD5 padding: a 0x80 byte, zeros to 56 mod 64, then the bit length
as eight little-endian bytes (mod 2^64). -/
def md5Pad (msg : List Nat) : List Nat :=
  msg ++ 128 :: (List.replicate ((119 - msg.length % 64) % 64) 0 ++
    toLE ((8 * msg.length) % 18446744073709551616) 8)

/-- The MD5 initial state. -/
def md5Init : Nat × Nat × Nat × Nat :=
  (0x67452301, 0xefcdab89, 0x98badcfe, 0x10325476)

/-- The 16-byte MD5 digest of a byte list. -/
def md5Bytes (msg : List Nat) : List Nat :=
  let r := (toChunks (md5Pad msg)).foldl (fun st ch => md5Chunk st (toWords ch)) md5Init
  toLE r.1 4 ++ toLE r.2.1 4 ++ toLE r.2.2.1 4 ++ toLE r.2.2.2 4

/-- Lowercase hexadecimal digit for `n < 16`. -/
def hexChar (n : Nat) : Char :=
  if n < 10 then Char.ofNat (48 + n) else Char.ofNat (87 + n)

/-- Two lowercase hex characters for a byte. -/
def byteHexChars (b : Nat) : List Char := [hexChar (b / 16), hexChar (b % 16)]

/-- Hex character representation of a byte list. -/
def bytesHexChars (l : List Nat) : List Char :=
  l.foldr (fun b acc => byteHexChars b ++ acc) []

/-- The 32 hex characters of the MD5 digest of a byte list. -/
def md5HexChars (msg : List Nat) : List Char := bytesHexChars (md5Bytes msg)

/-- UTF-8 encoding of a single code point. -/
def utf8Enc (n : Nat) : List Nat :=
  if n < 128 then [n]
  else if n < 2048 then [192 ||| (n >>> 6), 128 ||| (n &&& 63)]
  else if n < 65536 then
    [224 ||| (n >>> 12), 128 ||| ((n >>> 6) &&& 63), 128 ||| (n &&& 63)]
  else
    [240 ||| (n >>> 18), 128 ||| ((n >>> 12) &&& 63),
     128 ||| ((n >>> 6) &&& 63), 128 ||| (n &&& 63)]

/-- Embedding of Python `str.encode()`: the UTF-8 bytes of a string. -/
def pyEncode (s : String) : List Nat :=
  s.data.foldr (fun c acc => utf8Enc c.toNat ++ acc) []

/-- Embedding of `hashlib.md5(s.encode()).hexdigest()`. -/
def md5_hexdigest (s : String) : String := ⟨md5HexChars (pyEncode s)⟩

/-! ### The store (embedding of the SQLite table `urls` and `URLShortener`) -/

/-- Does the character list `s` start with `p`?  (Python `str.startswith`.) -/
def strStarts : List Char → List Char → Bool
  | _, [] => true
  | [], _ :: _ => false
  | a :: as, b :: bs => a == b && strStarts as bs

/-- Embedding of Python `s.startswith(p)`. -/
def pyStartsWith (s p : String) : Bool := strStarts s.data p.data

/-- One row of the `urls` table.  The `id` column (an autoincrement key never
read by the program) is not modelled; `created_at` (`CURRENT_TIMESTAMP`) is a
`Nat` timestamp supplied explicitly at insertion. -/
structure UrlRow where
  short_code : String
  original_url : String
  created_at : Nat
  click_count : Nat
deriving DecidableEq

/-- The `urls` table: its rows in insertion order. -/
abbrev Store := List UrlRow

/-- Embedding of `init_database`: `CREATE TABLE IF NOT EXISTS` gives the empty
table when none exists yet.  The schema's `click_count INTEGER DEFAULT 0` is
reflected in `insert_normalized`, which creates rows with `click_count = 0`. -/
def init_database : Store := []

/-- The scheme normalization at the top of `add_url`: prepend `http://`
unless the URL already starts with `http://` or `https://`. -/
def normalizeUrl (url : String) : String :=
  if pyStartsWith url "http://" || pyStartsWith url "https://" then url
  else "http://" ++ url

/-- Embedding of `generate_short_code`:
`hashlib.md5(url.encode()).hexdigest()[:6]`. -/
def generate_short_code (url : String) : String :=
  ⟨(md5HexChars (pyEncode url)).take 6⟩

/-- The body of `add_url` after normalization: `INSERT` raises
`sqlite3.IntegrityError` exactly when the UNIQUE constraint on `short_code`
is violated, i.e. when a row with that code already exists; the handler then
falls back to `SELECT short_code FROM urls WHERE original_url = ?` and
returns its first result (or `none`).  Otherwise a new row is appended with
`click_count = 0`. -/
def insert_normalized (db : Store) (original_url : String) (now : Nat) :
    Option String × Store :=
  let short_code := generate_short_code original_url
  if db.any (fun r => r.short_code == short_code) then
    ((db.find? (fun r => r.original_url == original_url)).map
      (fun r => r.short_code), db)
  else
    (some short_code, db ++ [⟨short_code, original_url, now, 0⟩])

/-- Embedding of `URLShortener.add_url`. -/
def add_url (db : Store) (original_url : String) (now : Nat) :
    Option String × Store :=
  insert_normalized db (normalizeUrl original_url) now

/-- Embedding of `URLShortener.get_original_url`:
`SELECT original_url FROM urls WHERE short_code = ?` with `fetchone`. -/
def get_original_url (db : Store) (short_code : String) : Option String :=
  (db.find? (fun r => r.short_code == short_code)).map (fun r => r.original_url)

/-- Embedding of `URLShortener.increment_click_count`:
`UPDATE urls SET click_count = click_count + 1 WHERE short_code = ?`. -/
def increment_click_count (db : Store) (short_code : String) : Store :=
  db.map (fun r =>
    if r.short_code == short_code then { r with click_count := r.click_count + 1 }
    else r)

/-- Embedding of `URLShortener.get_all_urls`:
`SELECT ... FROM urls ORDER BY created_at DESC`. -/
def get_all_urls (db : Store) : List UrlRow :=
  List.insertionSort (fun a b => b.created_at ≤ a.created_at) db

/-- `increment_click_count` iterated N times on the same short code (the
repeated-operation vocabulary of the spec's click-count property). -/
def incrN : Nat → Store → String → Store
  | 0, db, _ => db
  | n + 1, db, c => incrN n (increment_click_count db c) c

/-! ### The redirect handler (embedding of `RedirectHandler.do_GET`) -/

/-- An HTTP response as far as `do_GET` determines it: the status code, the
`Location` header when one is sent, and the HTML body when one is written. -/
structure HttpResponse where
  status : Nat
  location : Option String
  body : Option String
deriving DecidableEq

/-- The home page HTML served for the empty path (Python triple-quoted
string, reproduced verbatim). -/
def homeHtml : String :=
  "\n            <html>\n            <head><title>URL Shortener</title></head>\n            <body>\n                <h1>URL Shortener Service</h1>\n                <p>This is a local URL shortener service running on port 8080.</p>\n                <p>Use the GUI application to create short URLs.</p>\n            </body>\n            </html>\n            "

/-- The not-found HTML served for an unknown code (reproduced verbatim). -/
def notFoundHtml : String :=
  "\n            <html>\n            <head><title>URL Not Found</title></head>\n            <body>\n                <h1>404 - URL Not Found</h1>\n                <p>The short URL you requested does not exist.</p>\n            </body>\n            </html>\n            "

/-- Embedding of Python `path.lstrip(sep)` for the single separator `/`:
remove every leading `/` character. -/
def pyLstripSlash (s : String) : String := ⟨s.data.dropWhile (fun c => c == '/')⟩

/-- Embedding of `RedirectHandler.do_GET` as a function from the store and
the raw request path to the response and the updated store. -/
def do_GET (db : Store) (path : String) : HttpResponse × Store :=
  let p := pyLstripSlash path
  if p == "" then (⟨200, none, some homeHtml⟩, db)
  else
    match get_original_url db p with
    | some original_url => (⟨301, some original_url, none⟩, increment_click_count db p)
    | none => (⟨404, none, some notFoundHtml⟩, db)

/-- One core operation of the system, viewed as a transition on the store:
an insertion (`add_url`), a read (`get_original_url` or `get_all_urls`,
which leave the store unchanged), a click increment, or the handling of one
GET request. -/
inductive CoreStep : Store → Store → Prop where
  | add (db : Store) (u : String) (t : Nat) : CoreStep db (add_url db u t).2
  | lookup (db : Store) (c : String) : CoreStep db db
  | incr (db : Store) (c : String) : CoreStep db (increment_click_count db c)
  | listAll (db : Store) : CoreStep db db
  | httpGet (db : Store) (p : String) : CoreStep db (do_GET db p).2

/-- Relation between a store and its successor: no row disappears, every
surviving row keeps its short code and never loses clicks, and every newly
created row starts with `click_count = 0`.  (`click_count` is a `Nat` in
this embedding, hence non-negative by construction.) -/
def ClickMonotone (db db2 : Store) : Prop :=
  db.length ≤ db2.length ∧
  (∀ (i : Nat) (r : UrlRow), db[i]? = some r →
    ∃ r2, db2[i]? = some r2 ∧ r2.short_code = r.short_code ∧
      r.click_count ≤ r2.click_count) ∧
  (∀ (i : Nat) (r2 : UrlRow), db2[i]? = some r2 → db[i]? = none →
    r2.click_count = 0)

/-- The invariant maintained by `add_url` on every store it builds: each
row's code is the generated code of its URL, and codes are unique (the
UNIQUE constraint on `short_code`). -/
def WellFormedStore (db : Store) : Prop :=
  (∀ r ∈ db, r.short_code = generate_short_code r.original_url) ∧
  (db.map (fun r => r.short_code)).Nodup

/-- The sixteen lowercase hexadecimal characters. -/
def hexDigits : List Char := "0123456789abcdef".data

/-! ### Sanity checks of the executable embedding -/

example : md5_hexdigest "" = "d41d8cd98f00b204e9800998ecf8427e" := by decide
example : md5_hexdigest "abc" = "900150983cd24fb0d6963f7d28e17f72" := by decide
example : md5_hexdigest "http://example.com" = "a9b9f04336ce0181a08e774e01113b31" := by
  decide
example : generate_short_code "http://example.com" = "a9b9f0" := by decide
example : (add_url init_database "example.com" 0).1 = some "a9b9f0" := by decide


/-! ### Helper lemmas -/

theorem bytesHexChars_length (l : List Nat) :
    (bytesHexChars l).length = 2 * l.length := by
  induction l with
  | nil => rfl
  | cons b bs ih =>
    rw [show bytesHexChars (b :: bs) = byteHexChars b ++ bytesHexChars bs from rfl,
      List.length_append, ih]
    simp [byteHexChars]
    omega

theorem md5Bytes_length (m : List Nat) : (md5Bytes m).length = 16 := by
  simp [md5Bytes, toLE]

theorem mem_toLE_lt {x n b : Nat} (h : b ∈ toLE x n) : b < 256 := by
  simp only [toLE, List.mem_map, List.mem_range] at h
  obtain ⟨i, _, rfl⟩ := h
  exact Nat.mod_lt _ (by omega)

theorem mem_md5Bytes_lt {m : List Nat} {b : Nat} (h : b ∈ md5Bytes m) : b < 256 := by
  simp only [md5Bytes, List.mem_append] at h
  rcases h with (((h | h) | h) | h) <;> exact mem_toLE_lt h

theorem hexChar_mem_hexDigits {n : Nat} (h : n < 16) : hexChar n ∈ hexDigits := by
  interval_cases n <;> decide

theorem mem_byteHexChars {b : Nat} {c : Char} (hb : b < 256)
    (h : c ∈ byteHexChars b) : c ∈ hexDigits := by
  simp only [byteHexChars, List.mem_cons, List.not_mem_nil, or_false] at h
  rcases h with rfl | rfl
  · exact hexChar_mem_hexDigits (by omega)
  · exact hexChar_mem_hexDigits (Nat.mod_lt _ (by omega))

theorem mem_bytesHexChars {l : List Nat} {c : Char} (h : c ∈ bytesHexChars l) :
    ∃ b ∈ l, c ∈ byteHexChars b := by
  induction l with
  | nil => simp [bytesHexChars] at h
  | cons b bs ih =>
    simp only [bytesHexChars, List.foldr_cons, List.mem_append] at h
    rcases h with h | h
    · exact ⟨b, List.mem_cons_self b bs, h⟩
    · obtain ⟨x, hx, hc⟩ := ih h
      exact ⟨x, List.mem_cons_of_mem b hx, hc⟩

/-! ### Claims -/

/-- C1: for every url string that does not start with `http://` or
`https://`, `add_url` operates on `"http://" ++ url` (the short code is
derived from, and the stored `original_url` equals, the prefixed string);
for a url already starting with `http://` or `https://`, the original
string is passed through unchanged.  The third conjunct records that the
post-normalization body either leaves the store unchanged or appends a row
whose `original_url` is the normalized string and whose `short_code` is
derived from it. -/
theorem spec_c1 (db : Store) (u : String) (t : Nat) :
    (¬ (pyStartsWith u "http://" = true ∨ pyStartsWith u "https://" = true) →
      add_url db u t = insert_normalized db ("http://" ++ u) t) ∧
    ((pyStartsWith u "http://" = true ∨ pyStartsWith u "https://" = true) →
      add_url db u t = insert_normalized db u t) ∧
    ((insert_normalized db (normalizeUrl u) t).2 = db ∨
      (insert_normalized db (normalizeUrl u) t).2 =
        db ++ [⟨generate_short_code (normalizeUrl u), normalizeUrl u, t, 0⟩]) := by
  refine ⟨fun h => ?_, fun h => ?_, ?_⟩
  · have h1 : pyStartsWith u "http://" = false := by
      cases hh : pyStartsWith u "http://" <;> simp_all
    have h2 : pyStartsWith u "https://" = false := by
      cases hh : pyStartsWith u "https://" <;> simp_all
    simp [add_url, normalizeUrl, h1, h2]
  · have hb : (pyStartsWith u "http://" || pyStartsWith u "https://") = true := by
      rcases h with h | h <;> simp [h]
    simp [add_url, normalizeUrl, hb]
  · by_cases hc :
      (db.any fun r => r.short_code == generate_short_code (normalizeUrl u)) = true
    · left; simp [insert_normalized, hc]
    · right; simp [insert_normalized, hc]

theorem spec_c1_witness :
    add_url init_database "example.com" 0 =
      insert_normalized init_database "http://example.com" 0 ∧
    add_url init_database "https://x.org" 1 =
      insert_normalized init_database "https://x.org" 1 :=
  ⟨(spec_c1 init_database "example.com" 0).1 (by decide),
   (spec_c1 init_database "https://x.org" 1).2.1 (Or.inr (by decide))⟩

/-- C2: code assignment is deterministic (it is a pure function of the byte
encoding of its input: same bytes, same code), and the candidate short code
is the first 6 characters of the 32-character lowercase hexadecimal
representation of the MD5 digest of the URL's bytes. -/
theorem spec_c2 (u : String) :
    (generate_short_code u).data = (md5_hexdigest u).data.take 6 ∧
    (md5_hexdigest u).length = 32 ∧
    (generate_short_code u).length = 6 ∧
    (∀ c ∈ (md5_hexdigest u).data, c ∈ hexDigits) ∧
    (∀ v : String, pyEncode u = pyEncode v →
      generate_short_code u = generate_short_code v) := by
  have hlen : (md5HexChars (pyEncode u)).length = 32 := by
    simp [md5HexChars, bytesHexChars_length, md5Bytes_length]
  refine ⟨rfl, ?_, ?_, ?_, ?_⟩
  · simpa [md5_hexdigest, String.length] using hlen
  · simp only [generate_short_code, String.length]
    simp [List.length_take, hlen]
  · intro c hc
    obtain ⟨b, hb, hcb⟩ := mem_bytesHexChars (l := md5Bytes (pyEncode u)) hc
    exact mem_byteHexChars (mem_md5Bytes_lt hb) hcb
  · intro v h
    simp only [generate_short_code, h]

theorem spec_c2_witness :
    (md5_hexdigest "http://example.com").length = 32 ∧ 'a' ∈ hexDigits :=
  ⟨(spec_c2 "http://example.com").2.1,
   (spec_c2 "http://example.com").2.2.2.1 'a' (by decide)⟩

/-- C4: when the UNIQUE constraint on `short_code` would be violated (a row
with the candidate code already exists), `add_url` does not fail: it leaves
the store unchanged, returns the result of the fallback lookup of
`short_code` by `original_url`, and that result is `none` exactly when no
stored row has the normalized URL. -/
theorem spec_c4 (db : Store) (u : String) (t : Nat)
    (hdup : (db.any fun r =>
      r.short_code == generate_short_code (normalizeUrl u)) = true) :
    (add_url db u t).2 = db ∧
    (add_url db u t).1 =
      (db.find? (fun r => r.original_url == normalizeUrl u)).map
        (fun r => r.short_code) ∧
    ((add_url db u t).1 = none ↔ ∀ r ∈ db, r.original_url ≠ normalizeUrl u) := by
  have h1 : add_url db u t =
      ((db.find? (fun r => r.original_url == normalizeUrl u)).map
        (fun r => r.short_code), db) := by
    simp [add_url, insert_normalized, hdup]
  rw [h1]
  refine ⟨rfl, rfl, ?_⟩
  simp [Option.map_eq_none', List.find?_eq_none]

theorem spec_c4_witness :
    (add_url [⟨"a9b9f0", "http://example.com", 0, 0⟩] "example.com" 1).2 =
      [⟨"a9b9f0", "http://example.com", 0, 0⟩] :=
  (spec_c4 [⟨"a9b9f0", "http://example.com", 0, 0⟩] "example.com" 1 (by decide)).1

theorem get_original_url_of_mem (db : Store) (c : String) :
    (db.map (fun r => r.short_code)).Nodup →
    ∀ r ∈ db, r.short_code = c → get_original_url db c = some r.original_url := by
  induction db with
  | nil => intro _ r hr; exact absurd hr (List.not_mem_nil r)
  | cons a as ih =>
    intro hnodup r hr hrc
    simp only [List.map_cons, List.nodup_cons] at hnodup
    rcases List.mem_cons.mp hr with rfl | hmem
    · simp [get_original_url, List.find?_cons_of_pos, hrc]
    · have hna : ¬ (a.short_code == c) = true := by
        simp only [beq_iff_eq]
        intro he
        exact hnodup.1 (by rw [he, ← hrc]; exact List.mem_map_of_mem _ hmem)
      have htail := ih hnodup.2 r hmem hrc
      simp only [get_original_url] at htail ⊢
      rw [List.find?_cons_of_neg (p := fun r => r.short_code == c) as hna]
      exact htail

/-- C5: looking up a short code absent from the store returns `none`; looking
up a code present in the store returns exactly the `original_url` of the
(unique, by the UNIQUE constraint) row carrying that code. -/
theorem spec_c5 (db : Store) (c : String)
    (hnodup : (db.map (fun r => r.short_code)).Nodup) :
    ((∀ r ∈ db, r.short_code ≠ c) → get_original_url db c = none) ∧
    (∀ r ∈ db, r.short_code = c → get_original_url db c = some r.original_url) := by
  constructor
  · intro h
    simp only [get_original_url, Option.map_eq_none', List.find?_eq_none]
    intro r hr
    simp [h r hr]
  · exact get_original_url_of_mem db c hnodup

theorem spec_c5_witness :
    get_original_url [⟨"a9b9f0", "http://example.com", 0, 0⟩] "a9b9f0" =
      some "http://example.com" :=
  (spec_c5 [⟨"a9b9f0", "http://example.com", 0, 0⟩] "a9b9f0" (by decide)).2
    ⟨"a9b9f0", "http://example.com", 0, 0⟩ (by decide) rfl

theorem incrN_eq_map (N : Nat) (db : Store) (c : String) :
    incrN N db c = db.map (fun r =>
      if r.short_code == c then { r with click_count := r.click_count + N }
      else r) := by
  induction N generalizing db with
  | zero =>
    have h : (fun r : UrlRow =>
        if r.short_code == c then { r with click_count := r.click_count + 0 }
        else r) = id := by
      funext r
      cases r
      simp
    rw [show incrN 0 db c = db from rfl, h, List.map_id]
  | succ n ih =>
    rw [show incrN (n + 1) db c = incrN n (increment_click_count db c) c from rfl,
      ih, increment_click_count, List.map_map]
    congr 1
    funext r
    cases r with
    | mk a b t k =>
      by_cases hb : (a == c) = true
      · simp [Function.comp, hb]
        omega
      · simp [Function.comp, hb]

/-- C6: running `increment_click_count` N times on a short code adds exactly
N to the `click_count` of every row holding that code, and when no row holds
the code the store is left completely unchanged (a no-op, not a failure). -/
theorem spec_c6 (db : Store) (c : String) (N : Nat) :
    (∀ (i : Nat) (r : UrlRow), db[i]? = some r → r.short_code = c →
      ∃ r2, (incrN N db c)[i]? = some r2 ∧
        r2.click_count = r.click_count + N) ∧
    ((∀ r ∈ db, r.short_code ≠ c) → incrN N db c = db) := by
  constructor
  · intro i r h hrc
    rw [incrN_eq_map]
    refine ⟨if r.short_code == c then { r with click_count := r.click_count + N }
      else r, ?_, ?_⟩
    · rw [List.getElem?_map, h]
      rfl
    · simp [hrc]
  · intro h
    rw [incrN_eq_map]
    have h2 : ∀ r ∈ db,
        (if r.short_code == c then { r with click_count := r.click_count + N }
         else r) = id r := by
      intro r hr
      simp [h r hr]
    rw [List.map_congr_left h2, List.map_id]

theorem spec_c6_witness :
    ∃ r2, (incrN 2 [⟨"ab", "http://u.com", 0, 5⟩] "ab")[0]? = some r2 ∧
      r2.click_count = (⟨"ab", "http://u.com", 0, 5⟩ : UrlRow).click_count + 2 :=
  (spec_c6 [⟨"ab", "http://u.com", 0, 5⟩] "ab" 2).1 0 ⟨"ab", "http://u.com", 0, 5⟩
    (by decide) (by decide)

instance : IsTotal UrlRow (fun a b => b.created_at ≤ a.created_at) :=
  ⟨fun a b => Nat.le_total b.created_at a.created_at⟩

instance : IsTrans UrlRow (fun a b => b.created_at ≤ a.created_at) :=
  ⟨fun _ _ _ h1 h2 => Nat.le_trans h2 h1⟩

/-- C7: `get_all_urls` returns all stored entries (a permutation of the
table, so nothing is dropped and nothing is added, with no bound on the
length) ordered by `created_at` descending: every entry is at least as
recent as each entry after it. -/
theorem spec_c7 (db : Store) :
    (get_all_urls db).Perm db ∧
    (get_all_urls db).Pairwise (fun a b => b.created_at ≤ a.created_at) := by
  constructor
  · exact List.perm_insertionSort _ db
  · exact List.sorted_insertionSort (fun a b : UrlRow => b.created_at ≤ a.created_at) db

/-- C8: the redirect handler is the three-branch state machine of the spec:
an empty stripped path yields a 200 response with the static home page and
an untouched store; a stripped path whose lookup succeeds yields a 301
response whose Location header is exactly the stored original URL, together
with a click-count increment on that code; a stripped path whose lookup
fails yields a 404 response with the static not-found page and an untouched
store. -/
theorem spec_c8 (db : Store) (path : String) :
    (pyLstripSlash path = "" →
      do_GET db path = (⟨200, none, some homeHtml⟩, db)) ∧
    (∀ u, pyLstripSlash path ≠ "" →
      get_original_url db (pyLstripSlash path) = some u →
      do_GET db path =
        (⟨301, some u, none⟩, increment_click_count db (pyLstripSlash path))) ∧
    (pyLstripSlash path ≠ "" →
      get_original_url db (pyLstripSlash path) = none →
      do_GET db path = (⟨404, none, some notFoundHtml⟩, db)) := by
  refine ⟨fun h => ?_, fun u h hu => ?_, fun h hn => ?_⟩
  · simp [do_GET, h]
  · have hb : (pyLstripSlash path == "") = false := by simp [h]
    simp [do_GET, hb, hu]
  · have hb : (pyLstripSlash path == "") = false := by simp [h]
    simp [do_GET, hb, hn]

theorem spec_c8_witness :
    do_GET [⟨"a9b9f0", "http://example.com", 0, 0⟩] "/a9b9f0" =
      (⟨301, some "http://example.com", none⟩,
        increment_click_count [⟨"a9b9f0", "http://example.com", 0, 0⟩] "a9b9f0") ∧
    do_GET [⟨"a9b9f0", "http://example.com", 0, 0⟩] "/" =
      (⟨200, none, some homeHtml⟩, [⟨"a9b9f0", "http://example.com", 0, 0⟩]) ∧
    do_GET [⟨"a9b9f0", "http://example.com", 0, 0⟩] "/zzzzzz" =
      (⟨404, none, some notFoundHtml⟩, [⟨"a9b9f0", "http://example.com", 0, 0⟩]) :=
  ⟨(spec_c8 [⟨"a9b9f0", "http://example.com", 0, 0⟩] "/a9b9f0").2.1
      "http://example.com" (by decide) (by decide),
   (spec_c8 [⟨"a9b9f0", "http://example.com", 0, 0⟩] "/").1 (by decide),
   (spec_c8 [⟨"a9b9f0", "http://example.com", 0, 0⟩] "/zzzzzz").2.2
      (by decide) (by decide)⟩

theorem pyLstripSlash_slash (s : String) :
    pyLstripSlash ("/" ++ s) = pyLstripSlash s := by
  have hd : ("/" ++ s).data = '/' :: s.data := by
    rw [String.data_append]
    rfl
  simp [pyLstripSlash, hd]

theorem do_GET_congr (db : Store) (p1 p2 : String)
    (h : pyLstripSlash p1 = pyLstripSlash p2) : do_GET db p1 = do_GET db p2 := by
  unfold do_GET
  rw [h]

/-- C10: the handler's code extraction removes all leading slash characters
and keeps the remainder verbatim, query string included: a `//{code}` path
resolves exactly like `/{code}`, while `/{code}?{query}` is looked up as the
literal string `{code}?{query}` and therefore produces a 404 (with the
store untouched) when no row carries that literal code, even though a row
for `{code}` itself exists. -/
theorem spec_c10 (db : Store) (c q : String) :
    do_GET db ("//" ++ c) = do_GET db ("/" ++ c) ∧
    ((∃ r ∈ db, r.short_code = c) →
      (∀ r ∈ db, r.short_code ≠ c ++ "?" ++ q) →
      pyLstripSlash (c ++ "?" ++ q) = c ++ "?" ++ q →
      (do_GET db ("/" ++ (c ++ "?" ++ q))).1.status = 404 ∧
      (do_GET db ("/" ++ (c ++ "?" ++ q))).2 = db) := by
  constructor
  · apply do_GET_congr
    have h2 : ("//" ++ c) = "/" ++ ("/" ++ c) := by
      have : ("//" ++ c).data = ("/" ++ ("/" ++ c)).data := by
        simp [String.data_append]
      exact congrArg String.mk this
    rw [h2, pyLstripSlash_slash]
  · intro _ hnone hstrip
    have hp : pyLstripSlash ("/" ++ (c ++ "?" ++ q)) = c ++ "?" ++ q := by
      rw [pyLstripSlash_slash, hstrip]
    have hne : c ++ "?" ++ q ≠ "" := by
      intro he
      have : (c ++ "?" ++ q).data = [] := by rw [he]
      simp [String.data_append] at this
    have hb : (pyLstripSlash ("/" ++ (c ++ "?" ++ q)) == "") = false := by
      simp [hp, hne]
    have hlk : get_original_url db (pyLstripSlash ("/" ++ (c ++ "?" ++ q))) = none := by
      rw [hp]
      simp only [get_original_url, Option.map_eq_none', List.find?_eq_none]
      intro r hr
      simp [hnone r hr]
    constructor <;> simp [do_GET, hb, hlk]

theorem spec_c10_witness :
    do_GET [⟨"abc", "http://u.com", 0, 0⟩] ("//" ++ "abc") =
      do_GET [⟨"abc", "http://u.com", 0, 0⟩] ("/" ++ "abc") ∧
    (do_GET [⟨"abc", "http://u.com", 0, 0⟩]
      ("/" ++ ("abc" ++ "?" ++ "x"))).1.status = 404 :=
  ⟨(spec_c10 [⟨"abc", "http://u.com", 0, 0⟩] "abc" "x").1,
   ((spec_c10 [⟨"abc", "http://u.com", 0, 0⟩] "abc" "x").2
      (by decide) (by decide) (by decide)).1⟩

theorem clickMonotone_refl (db : Store) : ClickMonotone db db :=
  ⟨Nat.le_refl _, fun _ r h => ⟨r, h, rfl, Nat.le_refl _⟩,
   fun _ _ h hn => by rw [hn] at h; cases h⟩

theorem clickMonotone_incr (db : Store) (c : String) :
    ClickMonotone db (increment_click_count db c) := by
  refine ⟨?_, ?_, ?_⟩
  · simp [increment_click_count]
  · intro i r h
    refine ⟨if r.short_code == c then { r with click_count := r.click_count + 1 }
      else r, ?_, ?_, ?_⟩
    · simp [increment_click_count, List.getElem?_map, h]
    · by_cases hb : (r.short_code == c) = true <;> simp [hb]
    · by_cases hb : (r.short_code == c) = true <;> simp [hb]
  · intro i r2 h hn
    rw [increment_click_count, List.getElem?_map, hn] at h
    cases h

theorem clickMonotone_append_zero (db : Store) (x : UrlRow)
    (hx : x.click_count = 0) : ClickMonotone db (db ++ [x]) := by
  refine ⟨by simp, ?_, ?_⟩
  · intro i r h
    have hlt : i < db.length := by
      by_contra hge
      rw [List.getElem?_eq_none (by omega)] at h
      cases h
    refine ⟨r, ?_, rfl, Nat.le_refl _⟩
    rw [List.getElem?_append_left hlt]
    exact h
  · intro i r2 h hn
    have h1 : db.length ≤ i := List.getElem?_eq_none_iff.mp hn
    have h2 : i < db.length + 1 := by
      by_contra hge
      rw [List.getElem?_eq_none (by simp; omega)] at h
      cases h
    have h3 : i = db.length := by omega
    subst h3
    rw [List.getElem?_concat_length] at h
    cases h
    exact hx

theorem do_GET_snd_cases (db : Store) (p : String) :
    (do_GET db p).2 = db ∨
    (do_GET db p).2 = increment_click_count db (pyLstripSlash p) := by
  by_cases hb : (pyLstripSlash p == "") = true
  · left; simp [do_GET, hb]
  · cases hu : get_original_url db (pyLstripSlash p) with
    | none => left; simp [do_GET, hb, hu]
    | some u => right; simp [do_GET, hb, hu]

theorem insert_normalized_snd_cases (db : Store) (n : String) (t : Nat) :
    (insert_normalized db n t).2 = db ∨
    (insert_normalized db n t).2 = db ++ [⟨generate_short_code n, n, t, 0⟩] := by
  by_cases hc : (db.any fun r => r.short_code == generate_short_code n) = true
  · left; simp [insert_normalized, hc]
  · right; simp [insert_normalized, hc]

/-- C9: along every core operation (insert, lookup, click increment,
listing, GET handling), `click_count` is monotone: existing rows keep their
short code and never lose clicks, and rows created by an insertion start at
0 clicks.  In this embedding `click_count : Nat`, so it is non-negative by
construction. -/
theorem spec_c9 (db db2 : Store) (h : CoreStep db db2) : ClickMonotone db db2 := by
  cases h with
  | add u t =>
    show ClickMonotone db (insert_normalized db (normalizeUrl u) t).2
    rcases insert_normalized_snd_cases db (normalizeUrl u) t with h2 | h2 <;> rw [h2]
    · exact clickMonotone_refl db
    · exact clickMonotone_append_zero db _ rfl
  | lookup c => exact clickMonotone_refl db
  | incr c => exact clickMonotone_incr db c
  | listAll => exact clickMonotone_refl db
  | httpGet p =>
    rcases do_GET_snd_cases db p with h2 | h2 <;> rw [h2]
    · exact clickMonotone_refl db
    · exact clickMonotone_incr db _

theorem spec_c9_witness :
    ClickMonotone [⟨"ab", "http://u.com", 0, 5⟩]
      (increment_click_count [⟨"ab", "http://u.com", 0, 5⟩] "ab") :=
  spec_c9 _ _ (CoreStep.incr [⟨"ab", "http://u.com", 0, 5⟩] "ab")

/-- C3 as literally stated is false: `md5("http://a10088.com")` and
`md5("http://a10782.com")` share the 6-character hex prefix `5445d6`, so
after `http://a10088.com` is stored, inserting `http://a10782.com` twice
(its own normalized form, both times) hits the UNIQUE-constraint fallback,
whose lookup by `original_url` finds nothing: both calls return `none`
rather than a short code, and the final store holds zero (not exactly one)
entries for that URL. -/
theorem spec_c3_counterexample :
    generate_short_code "http://a10088.com" =
      generate_short_code "http://a10782.com" ∧
    (add_url (add_url init_database "http://a10088.com" 0).2
      "http://a10782.com" 1).1 = none ∧
    (add_url (add_url (add_url init_database "http://a10088.com" 0).2
        "http://a10782.com" 1).2 "http://a10782.com" 2).1 = none ∧
    ((add_url (add_url (add_url init_database "http://a10088.com" 0).2
        "http://a10782.com" 1).2 "http://a10782.com" 2).2.countP
      (fun r => r.original_url == "http://a10782.com")) = 0 := by
  refine ⟨by decide, by decide, by decide, by decide⟩

theorem nodup_all_eq_length_le_one (l : List String) (g : String)
    (hnd : l.Nodup) (hall : ∀ x ∈ l, x = g) : l.length ≤ 1 := by
  match l with
  | [] => simp
  | [x] => simp
  | x :: y :: rest =>
    exfalso
    have hx := hall x (by simp)
    have hy := hall y (by simp)
    exact (List.nodup_cons.mp hnd).1 (by rw [hx, ← hy]; exact List.mem_cons_self y rest)

/-- C3 amended: provided no already-stored row carries the candidate code of
the normalized URL while storing a different URL (no 6-hex-character
MD5-prefix collision), inserting the same URL twice returns the same short
code from both calls, and afterwards the store contains exactly one row for
that normalized URL. -/
theorem spec_c3 (db : Store) (u : String) (t1 t2 : Nat)
    (hwf : WellFormedStore db)
    (hnc : ∀ r ∈ db, r.short_code = generate_short_code (normalizeUrl u) →
      r.original_url = normalizeUrl u) :
    (add_url db u t1).1 = some (generate_short_code (normalizeUrl u)) ∧
    (add_url (add_url db u t1).2 u t2).1 =
      some (generate_short_code (normalizeUrl u)) ∧
    ((add_url (add_url db u t1).2 u t2).2.countP
      (fun r => r.original_url == normalizeUrl u)) = 1 := by
  obtain ⟨hcode, hnodup⟩ := hwf
  by_cases hex : (db.any fun r =>
    r.short_code == generate_short_code (normalizeUrl u)) = true
  · -- the code already exists: both calls fall back to the lookup by URL
    obtain ⟨r0, hr0mem, hr0beq⟩ := List.any_eq_true.mp hex
    have hr0code : r0.short_code = generate_short_code (normalizeUrl u) := by
      simpa using hr0beq
    have hr0url : r0.original_url = normalizeUrl u := hnc r0 hr0mem hr0code
    obtain ⟨r1, hr1⟩ : ∃ r1,
        db.find? (fun r => r.original_url == normalizeUrl u) = some r1 :=
      Option.isSome_iff_exists.mp (by
        rw [List.find?_isSome]
        exact ⟨r0, hr0mem, by simp [hr0url]⟩)
    have hr1mem : r1 ∈ db := List.mem_of_find?_eq_some hr1
    have hr1url : r1.original_url = normalizeUrl u := by
      simpa using List.find?_some hr1
    have hr1code : r1.short_code = generate_short_code (normalizeUrl u) := by
      rw [hcode r1 hr1mem, hr1url]
    have h1 : add_url db u t1 =
        (some (generate_short_code (normalizeUrl u)), db) := by
      simp [add_url, insert_normalized, hex, hr1, hr1code]
    have h2 : add_url db u t2 =
        (some (generate_short_code (normalizeUrl u)), db) := by
      simp [add_url, insert_normalized, hex, hr1, hr1code]
    refine ⟨by simp [h1], by simp [h1, h2], ?_⟩
    have hfilter :
        ∀ x ∈ (db.filter (fun r => r.original_url == normalizeUrl u)).map
          (fun r => r.short_code), x = generate_short_code (normalizeUrl u) := by
      intro x hx
      obtain ⟨r, hrf, rfl⟩ := List.mem_map.mp hx
      obtain ⟨hrmem, hrp⟩ := List.mem_filter.mp hrf
      rw [hcode r hrmem, show r.original_url = normalizeUrl u from by simpa using hrp]
    have hndf : ((db.filter (fun r => r.original_url == normalizeUrl u)).map
        (fun r => r.short_code)).Nodup :=
      List.Nodup.sublist (List.Sublist.map _ (List.filter_sublist db)) hnodup
    have hle := nodup_all_eq_length_le_one _ _ hndf hfilter
    rw [List.length_map] at hle
    have hpos :
        0 < (db.filter (fun r => r.original_url == normalizeUrl u)).length :=
      List.length_pos.mpr (List.ne_nil_of_mem
        (List.mem_filter.mpr ⟨hr1mem, by simp [hr1url]⟩))
    simp only [h1, h2]
    rw [List.countP_eq_length_filter]
    omega
  · -- fresh code: the first call inserts, the second finds the new row
    have h1 : add_url db u t1 =
        (some (generate_short_code (normalizeUrl u)),
          db ++ [⟨generate_short_code (normalizeUrl u), normalizeUrl u, t1, 0⟩]) := by
      simp [add_url, insert_normalized, hex]
    have hany2 : ((db ++
        [(⟨generate_short_code (normalizeUrl u), normalizeUrl u, t1, 0⟩ : UrlRow)]).any
        fun r => r.short_code == generate_short_code (normalizeUrl u)) = true := by
      simp
    have hnone : ∀ r ∈ db, ¬ (r.original_url == normalizeUrl u) = true := by
      intro r hr
      simp only [beq_iff_eq]
      intro he
      exact hex (List.any_eq_true.mpr ⟨r, hr, by
        simp [show r.short_code = generate_short_code (normalizeUrl u) from by
          rw [hcode r hr, he]]⟩)
    have hfind2 : (db ++
        [(⟨generate_short_code (normalizeUrl u), normalizeUrl u, t1, 0⟩ : UrlRow)]).find?
          (fun r => r.original_url == normalizeUrl u) =
        some (⟨generate_short_code (normalizeUrl u), normalizeUrl u, t1, 0⟩ : UrlRow) := by
      rw [List.find?_append, List.find?_eq_none.mpr hnone]
      simp
    have h2 : add_url (db ++
        [(⟨generate_short_code (normalizeUrl u), normalizeUrl u, t1, 0⟩ : UrlRow)]) u t2 =
        (some (generate_short_code (normalizeUrl u)),
          db ++ [⟨generate_short_code (normalizeUrl u), normalizeUrl u, t1, 0⟩]) := by
      simp [add_url, insert_normalized, hany2, hfind2]
    have hc0 : db.countP (fun r => r.original_url == normalizeUrl u) = 0 :=
      List.countP_eq_zero.mpr hnone
    refine ⟨by simp [h1], by simp [h1, h2], ?_⟩
    simp [h1, h2, List.countP_append, hc0, List.countP_cons]

theorem spec_c3_witness :
    (add_url init_database "example.com" 0).1 =
      some (generate_short_code (normalizeUrl "example.com")) ∧
    (add_url (add_url init_database "example.com" 0).2 "example.com" 1).1 =
      some (generate_short_code (normalizeUrl "example.com")) ∧
    ((add_url (add_url init_database "example.com" 0).2 "example.com" 1).2.countP
      (fun r => r.original_url == normalizeUrl "example.com")) = 1 :=
  spec_c3 init_database "example.com" 0 1
    ⟨by simp [init_database], by simp [init_database]⟩
    (by simp [init_database])
